import Mathlib

/-!
Shallow embedding of the kalami A/B updater core (src/updater.cpp,
src/imagereader.cpp) and proofs about it.

Machine integers are modelled as `Nat` with explicit reduction modulo `2 ^ 64`
where the C code computes in `size_t`.  File contents are byte lists
(`List Nat`, each element intended below 256; theorems that need the bound
take it as a hypothesis).  The streaming SHA-512 primitive is kept abstract:
functions that hash take the hash `H : List Nat → List Nat` as a parameter,
so every statement holds for the real SHA-512 in particular.
-/

set_option autoImplicit false
set_option maxRecDepth 40000

namespace Kalami

/-! ## imagereader.cpp -/

/-- The modulus of `size_t` / `uint64_t` arithmetic. -/
def MOD64 : Nat := 2 ^ 64

/-- `ALIGN_TO(l, ali)` from imagereader.cpp: `(l + ali - 1) & ~(ali - 1)`,
computed in `size_t` (64-bit, wrapping) arithmetic.  `l + ali - 1` is
`(l + ali + (2^64 - 1)) % 2^64` and the complement of `x` is `2^64 - 1 - x`. -/
def ALIGN_TO (l ali : Nat) : Nat :=
  Nat.land ((l + ali + (MOD64 - 1)) % MOD64)
    ((MOD64 - 1) - ((ali + (MOD64 - 1)) % MOD64))

/-- Little-endian read of `n` bytes at offset `off` of a byte list, as done by
`qFromLittleEndian` / `le32toh` on the packed header structs.  Bytes past the
end of the list read as `0` (callers check the length first, as the code checks
the result of `file.read`). -/
def readLE (bytes : List Nat) (off n : Nat) : Nat :=
  match n with
  | 0 => 0
  | Nat.succ m => bytes.getD off 0 + 256 * readLE bytes (off + 1) m

/-- `enum ImageReader::ImageType`. -/
inductive ImageType where
  | SquashFsType
  | AndroidBootType
deriving DecidableEq

/-- `SQUASHFS_MAGIC` (from linux/magic.h). -/
def SQUASHFS_MAGIC : Nat := 0x73717368

/-- `_ANDROID_BOOTIMG_MAGIC_1`. -/
def ANDROID_BOOTIMG_MAGIC_1 : Nat := 0x52444e41

/-- `_ANDROID_BOOTIMG_MAGIC_2`. -/
def ANDROID_BOOTIMG_MAGIC_2 : Nat := 0x2144494f

/-- `sizeof(struct squashfsHeader)`: five u32, six u16, two u64, packed. -/
def squashfsHeaderSize : Nat := 48

/-- `sizeof(struct androidBootHeader)`: eleven u32, packed. -/
def androidBootHeaderSize : Nat := 44

/-- `ImageReader::open()` for a regular file whose bytes are `bytes`
(`fileSize = file.size() = bytes.length`).  Returns the computed `imageSize`
on success and `none` on any failure path (short header read, wrong magic,
`fileSize < imageSize`).  Field offsets follow the packed structs:
squashfs `bytes_used` at offset 40 (u64); android `kernel_size` at 8,
`initrd_size` at 16, `second_size` at 24, `page_size` at 36, `dtb_size`
at 40 (all u32). -/
def imageReaderOpen (ty : ImageType) (bytes : List Nat) : Option Nat :=
  match ty with
  | ImageType.SquashFsType =>
    if bytes.length < squashfsHeaderSize then none
    else if readLE bytes 0 4 ≠ SQUASHFS_MAGIC then none
    else
      let imageSize := ALIGN_TO (readLE bytes 40 8) 4096
      if bytes.length < imageSize then none else some imageSize
  | ImageType.AndroidBootType =>
    if bytes.length < androidBootHeaderSize then none
    else if readLE bytes 0 4 ≠ ANDROID_BOOTIMG_MAGIC_1 ∨
            readLE bytes 4 4 ≠ ANDROID_BOOTIMG_MAGIC_2 then none
    else
      let pagesize := readLE bytes 36 4
      let imageSize :=
        ALIGN_TO 608 pagesize +
        ALIGN_TO (readLE bytes 8 4) pagesize +
        ALIGN_TO (readLE bytes 16 4) pagesize +
        ALIGN_TO (readLE bytes 24 4) pagesize +
        ALIGN_TO (readLE bytes 40 4) pagesize
      if bytes.length < imageSize then none else some imageSize

/-! ## UpdateWriter (updater.cpp)

The wrapped `QFile` is a byte list plus a write position.  `open` is a
truncating, unbuffered, write-only open. -/

/-- State of the `QFile` wrapped by `UpdateWriter`: its contents and the
current position. -/
structure QFileState where
  contents : List Nat
  pos : Nat
deriving DecidableEq

/-- `QFile::write` at the current position: overwrites in place and extends
the file as needed, then advances the position. -/
def fileWrite (f : QFileState) (data : List Nat) : QFileState :=
  { contents := f.contents.take f.pos ++ data ++ f.contents.drop (f.pos + data.length)
    pos := f.pos + data.length }

/-- `QFile::resize(sz)`: pads with zero bytes when growing, truncates when
shrinking; the position is untouched. -/
def fileResize (f : QFileState) (sz : Nat) : QFileState :=
  { contents := f.contents.take sz ++ List.replicate (sz - f.contents.length) 0
    pos := f.pos }

namespace UpdateWriter

/-- `UpdateWriter::open`: truncating write-only open yields an empty file at
position 0. -/
def openWriter : QFileState := ⟨[], 0⟩

/-- `UpdateWriter::append(s, n)`: `file.write(s, n)`. -/
def append (f : QFileState) (data : List Nat) : QFileState :=
  fileWrite f data

/-- `UpdateWriter::push_back(c)`: `file.write(&c, 1)`. -/
def push_back (f : QFileState) (c : Nat) : QFileState :=
  fileWrite f [c]

/-- `UpdateWriter::clear()`: `file.reset()` rewinds the position to 0. -/
def clear (f : QFileState) : QFileState :=
  { f with pos := 0 }

/-- `UpdateWriter::ReserveAdditionalBytes(res_arg)`:
`file.resize(file.pos() + res_arg)`. -/
def ReserveAdditionalBytes (f : QFileState) (n : Nat) : QFileState :=
  fileResize f (f.pos + n)

/-- `UpdateWriter::size()`: `file.pos()`. -/
def size (f : QFileState) : Nat := f.pos

end UpdateWriter

/-! ## Hash verification (UpdateThread::verifyImage) -/

/-- One lowercase hex digit, as produced by `QByteArray::toHex`. -/
def hexDigitChar (n : Nat) : Char :=
  Char.ofNat (if n < 10 then 48 + n else 87 + n)

/-- Two lowercase hex digits of one byte. -/
def byteToHex (b : Nat) : List Char :=
  [hexDigitChar (b / 16 % 16), hexDigitChar (b % 16)]

/-- `QByteArray::toHex()`: lowercase hex encoding of a byte string. -/
def toHexLower (bs : List Nat) : String :=
  String.mk (bs.flatMap byteToHex)

/-- Length of the chunk hashed by one iteration of the `verifyImage` loop:
`qMin((qint64) 1024 * 1024, (qint64)(image.size() - pos))`. -/
def hashChunkLen (size pos : Nat) : Nat :=
  min (1024 * 1024) (size - pos)

/-- The bytes fed to the hash by the `while (pos < image.size())` loop of
`verifyImage`, starting at position `pos`.  The loop advances by at least one
byte per iteration, so `size` iterations of fuel always suffice; `verifyData`
below instantiates the fuel accordingly. -/
def verifyLoopData (bytes : List Nat) (size : Nat) : Nat → Nat → List Nat
  | _, 0 => []
  | pos, Nat.succ fuel =>
    if pos < size then
      (bytes.drop pos).take (hashChunkLen size pos) ++
        verifyLoopData bytes size (pos + hashChunkLen size pos) fuel
    else []

/-- All bytes fed to the hash by `verifyImage`'s loop. -/
def verifyData (bytes : List Nat) (size : Nat) : List Nat :=
  verifyLoopData bytes size 0 size

/-- The fractions `(float) pos / (float) image.size()` passed to
`emitProgress(false, ·)` by the `verifyImage` loop, from position `pos` on. -/
def verifyLoopFracs (size : Nat) : Nat → Nat → List ℚ
  | _, 0 => []
  | pos, Nat.succ fuel =>
    if pos < size then
      (((pos + hashChunkLen size pos : Nat) : ℚ) / (size : ℚ)) ::
        verifyLoopFracs size (pos + hashChunkLen size pos) fuel
    else []

/-- All verification-progress fractions of one `verifyImage` run. -/
def verifyFracs (size : Nat) : List ℚ :=
  verifyLoopFracs size 0 size

/-- `UpdateThread::verifyImage(type, path, sha512)` over a file with bytes
`bytes`, with the streaming SHA-512 abstracted as `H` over the hashed bytes.
Returns `false` when `ImageReader::open` fails, otherwise compares
`hash.result().toHex() == sha512`. -/
def verifyImage (H : List Nat → List Nat) (ty : ImageType) (bytes : List Nat)
    (sha512 : String) : Bool :=
  match imageReaderOpen ty bytes with
  | none => false
  | some size => toHexLower (H (verifyData bytes size)) == sha512

/-! ## UpdateThread (updater.cpp)

The engine's interaction with the network and the on-disk images is
abstracted into a per-image-kind environment `KindEnv`: the outcome of each
network transfer, the download-progress fractions the transport reported, and
the outcome of each `verifyImage` call (whether `ImageReader::open` succeeded
on the written output, with which `imageSize`, and whether the digest
matched).  The control flow over these outcomes is translated statement by
statement from `downloadAndVerify` and `run`. -/

/-- `enum` state of `UpdateThread`, used only by `emitProgress`. -/
inductive EngineState where
  | DownloadBootimgState
  | DownloadRootfsState
deriving DecidableEq

/-- `UpdateThread::emitProgress(isDownload, v)`: drops `v` outside `[0,1]`,
otherwise emits `base + (isDownload ? 0 : 0.25) + v/4` where `base` is `0`
for the boot image and `0.5` for the rootfs. -/
def emitProgress (st : EngineState) (isDownload : Bool) (v : ℚ) : Option ℚ :=
  if v < 0 ∨ v > 1 then none
  else
    some ((match st with
           | EngineState.DownloadBootimgState => (0 : ℚ)
           | EngineState.DownloadRootfsState => (1 / 2 : ℚ)) +
          (if isDownload then (0 : ℚ) else (1 / 4 : ℚ)) + v / 4)

/-- Progress values emitted by the `downloadProgress` handler of one transfer
(delta or full download), given the fractions
`(float) bytesReceived / (float) bytesTotal` the transport reported. -/
def downloadTrace (st : EngineState) (fracs : List ℚ) : List ℚ :=
  fracs.filterMap (emitProgress st true)

/-- Environment of one `downloadAndVerify` call: the outcomes of the
fallible steps it performs.  `verify1Open`/`verify2Open` is the result of
`ImageReader::open` (and `map`) inside the first/second `verifyImage` call on
the output path — `none` when it fails, `some imageSize` otherwise;
`verify1Match`/`verify2Match` is the digest comparison outcome. -/
structure KindEnv where
  dictOpens : Bool
  deltaFracs : List ℚ
  deltaOk : Bool
  verify1Open : Option Nat
  verify1Match : Bool
  fullFracs : List ℚ
  fullOk : Bool
  verify2Open : Option Nat
  verify2Match : Bool

/-- Result and emitted-progress trace of one `verifyImage` call on the output
path: no emissions and `false` when open/map fails, otherwise the loop's
fractions through `emitProgress(false, ·)` and the comparison outcome. -/
def verifyPhase (st : EngineState) (openResult : Option Nat) (matched : Bool) :
    Bool × List ℚ :=
  match openResult with
  | none => (false, [])
  | some size => (matched, (verifyFracs size).filterMap (emitProgress st false))

/-- Outcome of one `UpdateThread::downloadAndVerify` call: the returned
Bool, how many full-image downloads were issued, and the progress values
emitted along the way. -/
structure DVResult where
  ok : Bool
  fullDownloads : Nat
  trace : List ℚ
deriving DecidableEq

/-- `UpdateThread::downloadAndVerify`, statement by statement:
if the dictionary opens and `downloadDeltaImage` fails, return `false`
immediately; otherwise verify the output; on match return `true`; otherwise
run `downloadFullImage` and verify again. -/
def downloadAndVerify (st : EngineState) (e : KindEnv) : DVResult :=
  let deltaTrace := if e.dictOpens then downloadTrace st e.deltaFracs else []
  if e.dictOpens && !e.deltaOk then
    { ok := false, fullDownloads := 0, trace := deltaTrace }
  else
    let v1 := verifyPhase st e.verify1Open e.verify1Match
    if v1.1 then
      { ok := true, fullDownloads := 0, trace := deltaTrace ++ v1.2 }
    else
      let fullTrace := downloadTrace st e.fullFracs
      if !e.fullOk then
        { ok := false, fullDownloads := 1, trace := deltaTrace ++ v1.2 ++ fullTrace }
      else
        let v2 := verifyPhase st e.verify2Open e.verify2Match
        { ok := v2.1, fullDownloads := 1,
          trace := deltaTrace ++ v1.2 ++ fullTrace ++ v2.2 }

/-- `UpdateThread::run()`: boot image first; on failure emit `failed` and
stop; otherwise rootfs; emit `succeeded` only when both succeed.  Returns
the overall outcome and the emitted progress values in order. -/
def runThread (eBoot eRootfs : KindEnv) : Bool × List ℚ :=
  let rB := downloadAndVerify EngineState.DownloadBootimgState eBoot
  if !rB.ok then (false, rB.trace)
  else
    let rR := downloadAndVerify EngineState.DownloadRootfsState eRootfs
    (rR.ok, rB.trace ++ rR.trace)

/-! ## Updater controller (updater.cpp) -/

/-- The outward-visible events of the updater, plus the
`machine->setAltBootConfig()` call (`commitInactive`) made in the
`UpdateThread::succeeded` handler of `Updater::install`. -/
inductive Event where
  | updateAvailable (version : Nat)
  | alreadyUpToDate
  | checkFailed
  | updateProgress (v : ℚ)
  | updateSucceeded
  | updateFailed
  | commitInactive
deriving DecidableEq

/-- `Updater::install()` together with the `UpdateThread` it starts:
when `availableUpdate.version == 0`, emit `update_failed` and stop;
otherwise run the thread, forward every progress value, and on `succeeded`
call `machine->setAltBootConfig()` then emit `update_succeeded`; on `failed`
emit `update_failed`. -/
def installEvents (version : Nat) (eBoot eRootfs : KindEnv) : List Event :=
  if version = 0 then [Event.updateFailed]
  else
    let r := runThread eBoot eRootfs
    r.2.map Event.updateProgress ++
      (if r.1 then [Event.commitInactive, Event.updateSucceeded]
       else [Event.updateFailed])

/-- `struct AvailableUpdate`, with URLs and hex digests as strings. -/
structure AvailableUpdate where
  version : Nat
  rootfsUrl : String
  rootfsSha512 : String
  bootimgUrl : String
  bootimgSha512 : String
  rootfsDeltaUrl : String
  bootimgDeltaUrl : String
deriving DecidableEq

/-- The `memset(&availableUpdate, 0, sizeof(availableUpdate))` record. -/
def zeroUpdate : AvailableUpdate :=
  ⟨0, "", "", "", "", "", ""⟩

/-- Environment of one `check` round trip: whether `/tmp/update.json` could
be written, the result of parsing the manifest bytes (`none` on a JSON parse
error — in particular when a transport error left the body empty — and the
parsed record otherwise), whether `/tmp/update.json.sig` could be written,
the GPG verdict, and the machine's OS version. -/
structure CheckEnv where
  jsonWriteOk : Bool
  parsed : Option AvailableUpdate
  sigWriteOk : Bool
  sigValid : Bool
  osVersion : Nat

/-- The two `Updater::downloadFinished` steps of one check, starting from the
in-memory record `init`: the `StateDownloadJson` case (write the manifest
bytes or bail silently; emit `checkFailed` on a parse error; otherwise assign
`availableUpdate` from the unverified JSON and fetch the signature) followed
by the `StateDownloadSignature` case (write the signature bytes or bail
silently; on a GPG failure zero `availableUpdate` and bail without emitting;
otherwise compare versions and emit `updateAvailable` or `alreadyUpToDate`).
Returns the final in-memory record and the emitted events. -/
def checkRun (env : CheckEnv) (init : AvailableUpdate) :
    AvailableUpdate × List Event :=
  if !env.jsonWriteOk then (init, [])
  else
    match env.parsed with
    | none => (init, [Event.checkFailed])
    | some upd =>
      if !env.sigWriteOk then (upd, [])
      else if !env.sigValid then (zeroUpdate, [])
      else if env.osVersion < upd.version then
        (upd, [Event.updateAvailable upd.version])
      else (upd, [Event.alreadyUpToDate])

/-! ## Auxiliary definitions used in statements and concrete inputs -/

/-- The base offset `emitProgress` adds before `v/4`: the quarter assigned to
the current (kind, download-or-verify) phase. -/
def phaseBase (st : EngineState) (isDownload : Bool) : ℚ :=
  (match st with
   | EngineState.DownloadBootimgState => (0 : ℚ)
   | EngineState.DownloadRootfsState => (1 / 2 : ℚ)) +
  (if isDownload then (0 : ℚ) else (1 / 4 : ℚ))

/-- A kind environment in which the fallback is never entered: the delta
transfer succeeds whenever the dictionary opens, and the first verification
opens the output and matches the digest. -/
def NoFallback (e : KindEnv) : Prop :=
  (e.dictOpens = true → e.deltaOk = true) ∧
  e.verify1Open.isSome = true ∧ e.verify1Match = true

/-- The transport reported non-decreasing download fractions within each
transfer of the kind. -/
def MonotoneFracs (e : KindEnv) : Prop :=
  List.Pairwise (· ≤ ·) e.deltaFracs ∧ List.Pairwise (· ≤ ·) e.fullFracs

/-- A 48-byte SquashFS file: valid magic (`hsqs` little-endian), all other
fields zero, so `bytes_used = 0`. -/
def cSq48 : List Nat := [0x68, 0x73, 0x71, 0x73] ++ List.replicate 44 0

/-- A 48-byte SquashFS file with valid magic and
`bytes_used = 0xffffffffffffffff`. -/
def cSqMax : List Nat :=
  [0x68, 0x73, 0x71, 0x73] ++ List.replicate 36 0 ++ List.replicate 8 255

/-- A 608-byte Android boot image: valid magics, every `*_size` zero and
`page_size = 3` (not a power of two). -/
def cAn3 : List Nat :=
  [0x41, 0x4e, 0x44, 0x52, 0x4f, 0x49, 0x44, 0x21] ++ List.replicate 28 0 ++
    ([3, 0, 0, 0] ++ List.replicate 568 0)

/-- A 608-byte Android boot image: valid magics, every `*_size` zero and
`page_size = 4`. -/
def cAn4 : List Nat :=
  [0x41, 0x4e, 0x44, 0x52, 0x4f, 0x49, 0x44, 0x21] ++ List.replicate 28 0 ++
    ([4, 0, 0, 0] ++ List.replicate 568 0)

/-- A kind environment whose delta output verifies at once (dictionary
unavailable, so the delta phase is skipped and the pre-existing output
verifies). -/
def cEnvPlain : KindEnv :=
  ⟨false, [], true, some 5, true, [], true, none, false⟩

/-- A kind environment that goes through the full-image fallback: the delta
transfer succeeds, its output opens but mismatches, the full image is
downloaded (its transport reports fraction 0 first) and then verifies. -/
def cEnvFallback : KindEnv :=
  ⟨true, [1], true, some 5, false, [0], true, some 5, true⟩

/-- A kind environment in which everything fails. -/
def cEnvFail : KindEnv :=
  ⟨false, [], false, none, false, [], false, none, false⟩

/-- A kind environment in which the dictionary opens and the delta transfer
fails with a transport or decoder error. -/
def cEnvDeltaErr : KindEnv :=
  ⟨true, [], false, some 5, true, [], true, some 5, true⟩

/-! ## Helper lemmas -/

/-- Masking with the high bits `2^64 - 2^k` clears the low `k` bits. -/
theorem land_high_mask {x k : Nat} (hx : x < 2 ^ 64) (hk : k ≤ 64) :
    Nat.land x (2 ^ 64 - 2 ^ k) = 2 ^ k * (x / 2 ^ k) := by
  have hmaskval : 2 ^ 64 - 2 ^ k = (2 ^ (64 - k) - 1) <<< k := by
    rw [Nat.shiftLeft_eq, Nat.sub_mul, one_mul, ← pow_add, Nat.sub_add_cancel hk]
  have hrhs : 2 ^ k * (x / 2 ^ k) = (x >>> k) <<< k := by
    rw [Nat.shiftLeft_eq, Nat.shiftRight_eq_div_pow, Nat.mul_comm]
  apply Nat.eq_of_testBit_eq
  intro i
  rw [show x.land (2 ^ 64 - 2 ^ k) = x &&& (2 ^ 64 - 2 ^ k) from rfl,
    Nat.testBit_land, hmaskval, hrhs, Nat.testBit_shiftLeft, Nat.testBit_shiftLeft,
    Nat.testBit_two_pow_sub_one, Nat.testBit_shiftRight]
  by_cases hki : k ≤ i
  · simp only [hki, decide_true_eq_true, Bool.true_and]
    by_cases hi64 : i < 64
    · have : i - k < 64 - k := by omega
      simp [this, Nat.add_sub_cancel' hki]
    · have h1 : ¬ (i - k < 64 - k) := by omega
      have h2 : x.testBit i = false := by
        apply Nat.testBit_lt_two_pow
        calc x < 2 ^ 64 := hx
        _ ≤ 2 ^ i := Nat.pow_le_pow_right (by omega) (by omega)
      rw [Nat.add_sub_cancel' hki, h2]
      simp [h1]
  · simp [hki]

/-- For a power-of-two alignment with no 64-bit wrap, `ALIGN_TO` is the
mathematical round-up `2^k * ⌈l / 2^k⌉`. -/
theorem ALIGN_TO_pow2 {l k : Nat} (hk : k < 64) (hl : l + 2 ^ k - 1 < 2 ^ 64) :
    ALIGN_TO l (2 ^ k) = 2 ^ k * ((l + 2 ^ k - 1) / 2 ^ k) := by
  have hc : 0 < 2 ^ k := Nat.pos_pow_of_pos k (by omega)
  have hclt : 2 ^ k < 2 ^ 64 := Nat.pow_lt_pow_right (by omega) hk
  have h64 : MOD64 = 2 ^ 64 := rfl
  have h1 : (2 ^ k + (MOD64 - 1)) % MOD64 = 2 ^ k - 1 := by
    rw [h64]; omega
  have h2 : (l + 2 ^ k + (MOD64 - 1)) % MOD64 = l + 2 ^ k - 1 := by
    rw [h64]; omega
  have h3 : (MOD64 - 1) - (2 ^ k - 1) = 2 ^ 64 - 2 ^ k := by
    rw [h64]; omega
  unfold ALIGN_TO
  rw [h1, h2, h3]
  exact land_high_mask hl (le_of_lt hk)

/-- A little-endian read of `n` bytes of a byte-valued list is below `256^n`. -/
theorem readLE_lt {bytes : List Nat} (hb : ∀ b ∈ bytes, b < 256) :
    ∀ (n off : Nat), readLE bytes off n < 256 ^ n := by
  intro n
  induction n with
  | zero => intro off; simp [readLE]
  | succ m ih =>
    intro off
    have h0 : bytes.getD off 0 < 256 := by
      by_cases h : off < bytes.length
      · rw [List.getD_eq_getElem bytes 0 h]
        exact hb _ (List.getElem_mem h)
      · rw [List.getD_eq_default _ _ (by omega)]; omega
    have hr := ih (off + 1)
    have hpow : (256 : Nat) ^ (m + 1) = 256 ^ m * 256 := pow_succ 256 m
    rw [readLE, hpow]
    omega

/-- The chunked hashing loop of `verifyImage` feeds exactly
`bytes[pos .. size)` to the hash, for any sufficient fuel. -/
theorem verifyLoopData_eq (bytes : List Nat) (size : Nat) :
    ∀ (fuel pos : Nat), size - pos ≤ fuel →
      verifyLoopData bytes size pos fuel = (bytes.drop pos).take (size - pos) := by
  intro fuel
  induction fuel with
  | zero =>
    intro pos h
    have h0 : size - pos = 0 := by omega
    simp [verifyLoopData, h0]
  | succ m ih =>
    intro pos h
    by_cases hlt : pos < size
    · have hck1 : 1 ≤ hashChunkLen size pos := by
        unfold hashChunkLen; omega
      have hck2 : hashChunkLen size pos ≤ size - pos := by
        unfold hashChunkLen; omega
      rw [verifyLoopData]
      simp only [hlt, if_true]
      rw [ih (pos + hashChunkLen size pos) (by omega)]
      rw [show bytes.drop (pos + hashChunkLen size pos) =
            (bytes.drop pos).drop (hashChunkLen size pos) by
          rw [List.drop_drop, Nat.add_comm]]
      rw [← List.take_add]
      congr 1
      omega
    · rw [verifyLoopData]
      simp only [hlt, if_false]
      have h0 : size - pos = 0 := by omega
      simp [h0]

/-- `verifyImage` hashes exactly the first `size` bytes of the mapping. -/
theorem verifyData_eq_take (bytes : List Nat) (size : Nat) :
    verifyData bytes size = bytes.take size := by
  unfold verifyData
  rw [verifyLoopData_eq bytes size size 0 (by omega)]
  simp

/-- Characterization of a successful `emitProgress`. -/
theorem emitProgress_some {st : EngineState} {d : Bool} {v p : ℚ}
    (h : emitProgress st d v = some p) :
    0 ≤ v ∧ v ≤ 1 ∧ p = phaseBase st d + v / 4 := by
  unfold emitProgress at h
  by_cases hv : v < 0 ∨ v > 1
  · simp [hv] at h
  · rw [if_neg hv] at h
    push_neg at hv
    refine ⟨hv.1, hv.2, ?_⟩
    rw [← Option.some_inj.mp h]
    unfold phaseBase
    ring

/-- The phase base is one of the four quarter marks. -/
theorem phaseBase_bounds (st : EngineState) (d : Bool) :
    0 ≤ phaseBase st d ∧ phaseBase st d ≤ 3 / 4 := by
  unfold phaseBase
  cases st <;> cases d <;> norm_num

/-- Every emitted progress value sits inside the quarter of its phase. -/
theorem emitProgress_range {st : EngineState} {d : Bool} {v p : ℚ}
    (h : emitProgress st d v = some p) :
    phaseBase st d ≤ p ∧ p ≤ phaseBase st d + 1 / 4 := by
  obtain ⟨h0, h1, hp⟩ := emitProgress_some h
  constructor <;> rw [hp] <;> linarith

/-- `emitProgress` is monotone in the reported fraction. -/
theorem emitProgress_mono {st : EngineState} {d : Bool} {v w p q : ℚ}
    (hvw : v ≤ w) (hv : emitProgress st d v = some p)
    (hw : emitProgress st d w = some q) : p ≤ q := by
  obtain ⟨_, _, hp⟩ := emitProgress_some hv
  obtain ⟨_, _, hq⟩ := emitProgress_some hw
  rw [hp, hq]
  linarith

/-- Values of a filter-mapped progress list sit inside the phase quarter. -/
theorem filterMap_emit_range (st : EngineState) (d : Bool) (l : List ℚ) :
    ∀ x ∈ l.filterMap (emitProgress st d),
      phaseBase st d ≤ x ∧ x ≤ phaseBase st d + 1 / 4 := by
  intro x hx
  obtain ⟨v, _, hv⟩ := List.mem_filterMap.mp hx
  exact emitProgress_range hv

/-- Pairwise order is preserved through `emitProgress` filtering. -/
theorem pairwise_filterMap_emit (st : EngineState) (d : Bool) {l : List ℚ}
    (h : List.Pairwise (· ≤ ·) l) :
    List.Pairwise (· ≤ ·) (l.filterMap (emitProgress st d)) := by
  induction l with
  | nil => simp
  | cons a l ih =>
    rw [List.pairwise_cons] at h
    rw [List.filterMap_cons]
    rcases ha : emitProgress st d a with _ | p
    · exact ih h.2
    · rw [List.pairwise_cons]
      refine ⟨?_, ih h.2⟩
      intro q hq
      obtain ⟨w, hw, hwq⟩ := List.mem_filterMap.mp hq
      exact emitProgress_mono (h.1 w hw) ha hwq

/-- Every fraction the `verifyImage` loop reports from position `pos` on is
at least `pos / size` and lies in `[0, 1]`. -/
theorem verifyLoopFracs_bounds (size : Nat) :
    ∀ (fuel pos : Nat), ∀ q ∈ verifyLoopFracs size pos fuel,
      ((pos : ℚ) / (size : ℚ) ≤ q ∧ 0 ≤ q ∧ q ≤ 1) := by
  intro fuel
  induction fuel with
  | zero => simp [verifyLoopFracs]
  | succ m ih =>
    intro pos q hq
    rw [verifyLoopFracs] at hq
    by_cases hlt : pos < size
    · simp only [hlt, if_true, List.mem_cons] at hq
      have hsz : (0 : ℚ) < (size : ℚ) := by
        have : 0 < size := by omega
        exact_mod_cast this
      have hck1 : 1 ≤ hashChunkLen size pos := by unfold hashChunkLen; omega
      have hck2 : pos + hashChunkLen size pos ≤ size := by unfold hashChunkLen; omega
      have hstep : ((pos : ℚ)) ≤ ((pos + hashChunkLen size pos : Nat) : ℚ) := by
        exact_mod_cast Nat.le_add_right pos _
      rcases hq with rfl | hq
      · refine ⟨(div_le_div_iff_of_pos_right hsz).mpr hstep, ?_, ?_⟩
        · positivity
        · rw [div_le_one hsz]
          exact_mod_cast hck2
      · obtain ⟨h1, h2, h3⟩ := ih (pos + hashChunkLen size pos) q hq
        exact ⟨le_trans ((div_le_div_iff_of_pos_right hsz).mpr hstep) h1, h2, h3⟩
    · simp [hlt] at hq

/-- The fractions the `verifyImage` loop reports are non-decreasing. -/
theorem verifyLoopFracs_pairwise (size : Nat) :
    ∀ (fuel pos : Nat), List.Pairwise (· ≤ ·) (verifyLoopFracs size pos fuel) := by
  intro fuel
  induction fuel with
  | zero => intro pos; simp [verifyLoopFracs]
  | succ m ih =>
    intro pos
    rw [verifyLoopFracs]
    by_cases hlt : pos < size
    · simp only [hlt, if_true]
      rw [List.pairwise_cons]
      refine ⟨?_, ih _⟩
      intro q hq
      exact (verifyLoopFracs_bounds size m (pos + hashChunkLen size pos) q hq).1
    · simp [hlt]

/-- Every value in a `downloadAndVerify` trace was produced by `emitProgress`
with the call's engine state, so it sits in the quarter of some phase of that
state. -/
theorem dv_trace_mem (st : EngineState) (e : KindEnv) :
    ∀ x ∈ (downloadAndVerify st e).trace,
      ∃ d : Bool, phaseBase st d ≤ x ∧ x ≤ phaseBase st d + 1 / 4 := by
  have hdl : ∀ l : List ℚ, ∀ x ∈ downloadTrace st l,
      ∃ d : Bool, phaseBase st d ≤ x ∧ x ≤ phaseBase st d + 1 / 4 :=
    fun l x hx => ⟨true, filterMap_emit_range st true l x hx⟩
  have hdl' : ∀ (c : Bool) (l : List ℚ),
      ∀ x ∈ (if c then downloadTrace st l else []),
      ∃ d : Bool, phaseBase st d ≤ x ∧ x ≤ phaseBase st d + 1 / 4 := by
    intro c l x hx
    rcases c with _ | _
    · simp at hx
    · exact hdl l x hx
  have hvf : ∀ (o : Option Nat) (b : Bool), ∀ x ∈ (verifyPhase st o b).2,
      ∃ d : Bool, phaseBase st d ≤ x ∧ x ≤ phaseBase st d + 1 / 4 := by
    intro o b x hx
    rcases o with _ | n
    · simp [verifyPhase] at hx
    · exact ⟨false, filterMap_emit_range st false (verifyFracs n) x hx⟩
  intro x hx
  simp only [downloadAndVerify] at hx
  split at hx
  · exact hdl' _ _ x hx
  · split at hx
    · rcases List.mem_append.mp hx with h | h
      · exact hdl' _ _ x h
      · exact hvf _ _ x h
    · split at hx
      · rcases List.mem_append.mp hx with h | h
        · rcases List.mem_append.mp h with h2 | h2
          · exact hdl' _ _ x h2
          · exact hvf _ _ x h2
        · exact hdl _ x h
      · rcases List.mem_append.mp hx with h | h
        · rcases List.mem_append.mp h with h2 | h2
          · rcases List.mem_append.mp h2 with h3 | h3
            · exact hdl' _ _ x h3
            · exact hvf _ _ x h3
          · exact hdl _ x h2
        · exact hvf _ _ x h

/-- The kind-level range of emitted values: boot-kind emissions are at most
`1/2`, rootfs-kind emissions at least `1/2`; everything is inside `[0, 1]`. -/
theorem dv_trace_range (st : EngineState) (e : KindEnv) :
    ∀ x ∈ (downloadAndVerify st e).trace,
      0 ≤ x ∧ x ≤ 1 ∧
      (st = EngineState.DownloadBootimgState → x ≤ 1 / 2) ∧
      (st = EngineState.DownloadRootfsState → 1 / 2 ≤ x) := by
  intro x hx
  obtain ⟨d, h1, h2⟩ := dv_trace_mem st e x hx
  have hb := phaseBase_bounds st d
  refine ⟨by linarith, by linarith, ?_, ?_⟩
  · rintro rfl
    have : phaseBase EngineState.DownloadBootimgState d + 1 / 4 ≤ 1 / 2 := by
      cases d <;> norm_num [phaseBase]
    linarith
  · rintro rfl
    have : (1 / 2 : ℚ) ≤ phaseBase EngineState.DownloadRootfsState d := by
      cases d <;> norm_num [phaseBase]
    linarith

/-- In a run without fallback, `downloadAndVerify` succeeds and its trace is
the delta-download emissions followed by the first verification's emissions. -/
theorem dv_trace_nofallback (st : EngineState) (e : KindEnv) {n : Nat}
    (hd : e.dictOpens = true → e.deltaOk = true)
    (hn : e.verify1Open = some n) (hm : e.verify1Match = true) :
    (downloadAndVerify st e).ok = true ∧
    (downloadAndVerify st e).trace =
      (if e.dictOpens then downloadTrace st e.deltaFracs else []) ++
        (verifyFracs n).filterMap (emitProgress st false) := by
  have hcond : (e.dictOpens && !e.deltaOk) = false := by
    rcases h : e.dictOpens with _ | _
    · simp
    · simp [hd h]
  simp [downloadAndVerify, hcond, verifyPhase, hn, hm]

/-- In a run without fallback the kind's trace is non-decreasing, provided
the transport reported non-decreasing fractions. -/
theorem dv_trace_nofallback_pairwise (st : EngineState) (e : KindEnv) {n : Nat}
    (hd : e.dictOpens = true → e.deltaOk = true)
    (hn : e.verify1Open = some n) (hm : e.verify1Match = true)
    (hmono : List.Pairwise (· ≤ ·) e.deltaFracs) :
    List.Pairwise (· ≤ ·) (downloadAndVerify st e).trace := by
  rw [(dv_trace_nofallback st e hd hn hm).2]
  rw [List.pairwise_append]
  refine ⟨?_, pairwise_filterMap_emit st false (verifyLoopFracs_pairwise n n 0), ?_⟩
  · rcases e.dictOpens with _ | _
    · simp
    · simp only [if_true]
      exact pairwise_filterMap_emit st true hmono
  · intro a ha b hb
    have hbase : phaseBase st true + 1 / 4 = phaseBase st false := by
      cases st <;> norm_num [phaseBase]
    have ha' : a ≤ phaseBase st true + 1 / 4 := by
      rcases hc : e.dictOpens with _ | _
      · rw [hc] at ha; simp at ha
      · rw [hc] at ha
        simp only [if_true] at ha
        exact (filterMap_emit_range st true e.deltaFracs a ha).2
    have hb' : phaseBase st false ≤ b :=
      (filterMap_emit_range st false (verifyFracs n) b hb).1
    linarith

/-! ## Claim theorems -/

/-- C10: for every writer state, `ReserveAdditionalBytes(n)` resizes the
underlying file so its length is the current write position plus `n`, leaves
the write position — and hence `size()` — unchanged, and a subsequent
`append` writes its data at the same offset as it would have before the
reservation. -/
theorem C10_reserve_additional_bytes (f : QFileState) (n : Nat) (data : List Nat) :
    (UpdateWriter.ReserveAdditionalBytes f n).contents.length = f.pos + n ∧
    (UpdateWriter.ReserveAdditionalBytes f n).pos = f.pos ∧
    UpdateWriter.size (UpdateWriter.ReserveAdditionalBytes f n) = UpdateWriter.size f ∧
    (UpdateWriter.append (UpdateWriter.ReserveAdditionalBytes f n) data).pos =
      f.pos + data.length ∧
    ((UpdateWriter.append (UpdateWriter.ReserveAdditionalBytes f n) data).contents.drop
        f.pos).take data.length = data := by
  refine ⟨?_, rfl, rfl, rfl, ?_⟩
  · simp only [UpdateWriter.ReserveAdditionalBytes, fileResize, List.length_append,
      List.length_take, List.length_replicate]
    omega
  · simp only [UpdateWriter.append, fileWrite, UpdateWriter.ReserveAdditionalBytes, fileResize]
    rw [List.append_assoc]
    rw [List.drop_left' (by
      simp only [List.length_take, List.length_append, List.length_replicate]
      omega)]
    rw [List.take_left]

/-- C7: image verification hashes exactly the first `image_size` bytes (as
derived from the parsed header): two files that open to the same
`image_size` and agree on their first `image_size` bytes verify identically,
for every hash function and expected digest, regardless of any bytes past
`image_size`. -/
theorem C7_verify_prefix_only (H : List Nat → List Nat) (ty : ImageType)
    (d1 d2 : List Nat) (n : Nat) (sha : String)
    (h1 : imageReaderOpen ty d1 = some n) (h2 : imageReaderOpen ty d2 = some n)
    (hpre : d1.take n = d2.take n) :
    verifyImage H ty d1 sha = verifyImage H ty d2 sha := by
  simp only [verifyImage, h1, h2]
  rw [verifyData_eq_take, verifyData_eq_take, hpre]

/-- Witness for C7: a concrete 608-byte Android boot image and the same image
with a byte appended verify identically. -/
theorem C7_verify_prefix_only_witness :
    imageReaderOpen ImageType.AndroidBootType cAn4 = some 608 ∧
    imageReaderOpen ImageType.AndroidBootType (cAn4 ++ [7]) = some 608 ∧
    verifyImage (fun l => [l.length % 256]) ImageType.AndroidBootType cAn4 "qq" =
      verifyImage (fun l => [l.length % 256]) ImageType.AndroidBootType (cAn4 ++ [7]) "qq" :=
  ⟨by decide, by decide,
    C7_verify_prefix_only (fun l => [l.length % 256]) ImageType.AndroidBootType
      cAn4 (cAn4 ++ [7]) 608 "qq" (by decide) (by decide) (by decide)⟩

/-- C1: when the dictionary image opens and the delta attempt then fails with
a decoder or transport error, `downloadAndVerify` returns failure for the
kind immediately and performs no full-image download at all — the code does
not fall through to the full-image path in this case. -/
theorem C1_delta_failure_aborts_kind (st : EngineState) (e : KindEnv)
    (hdict : e.dictOpens = true) (hdelta : e.deltaOk = false) :
    (downloadAndVerify st e).ok = false ∧
    (downloadAndVerify st e).fullDownloads = 0 := by
  simp [downloadAndVerify, hdict, hdelta]

/-- Witness for C1: the concrete delta-transport-error environment. -/
theorem C1_delta_failure_aborts_kind_witness :
    (downloadAndVerify EngineState.DownloadBootimgState cEnvDeltaErr).ok = false ∧
    (downloadAndVerify EngineState.DownloadBootimgState cEnvDeltaErr).fullDownloads = 0 :=
  C1_delta_failure_aborts_kind EngineState.DownloadBootimgState cEnvDeltaErr rfl rfl

/-- C8 (amended): for a SquashFS input with valid magic that opens
successfully, `image_size` is `bytes_used` rounded up to the next multiple of
4096 whenever `bytes_used + 4095` does not wrap 64-bit arithmetic; whenever
`bytes_used` is a multiple of 4096, `image_size = bytes_used`; and a wrong
magic makes `open` fail. -/
theorem C8_squashfs_image_size :
    (∀ (bytes : List Nat) (n : Nat), (∀ b ∈ bytes, b < 256) →
      imageReaderOpen ImageType.SquashFsType bytes = some n →
      ((readLE bytes 40 8 + 4095 < 2 ^ 64 →
         n = 4096 * ((readLE bytes 40 8 + 4095) / 4096)) ∧
       (readLE bytes 40 8 % 4096 = 0 → n = readLE bytes 40 8))) ∧
    (∀ bytes : List Nat, readLE bytes 0 4 ≠ SQUASHFS_MAGIC →
      imageReaderOpen ImageType.SquashFsType bytes = none) := by
  constructor
  · intro bytes n hb hopen
    have hn : n = ALIGN_TO (readLE bytes 40 8) 4096 := by
      simp only [imageReaderOpen] at hopen
      split at hopen
      · exact absurd hopen (by simp)
      · split at hopen
        · exact absurd hopen (by simp)
        · split at hopen
          · exact absurd hopen (by simp)
          · exact (Option.some_inj.mp hopen).symm
    have hbu : readLE bytes 40 8 < 2 ^ 64 := by
      have h8 := readLE_lt hb 8 40
      have : (256 : Nat) ^ 8 = 2 ^ 64 := by norm_num
      omega
    have h4096 : (4096 : Nat) = 2 ^ 12 := by norm_num
    constructor
    · intro hov
      rw [hn, h4096, ALIGN_TO_pow2 (by omega) (by norm_num; omega)]
      norm_num
    · intro hmod
      have hov : readLE bytes 40 8 + 2 ^ 12 - 1 < 2 ^ 64 := by omega
      rw [hn, h4096, ALIGN_TO_pow2 (by omega) hov]
      omega
  · intro bytes hmagic
    simp [imageReaderOpen, hmagic]

/-- Witness for C8: `bytes_used = 0` opens to `image_size = 0`, which is the
rounded-up value, and an Android-magic file is rejected by the SquashFS
parser. -/
theorem C8_squashfs_image_size_witness :
    ((0 : Nat) = 4096 * ((readLE cSq48 40 8 + 4095) / 4096)) ∧
    imageReaderOpen ImageType.SquashFsType cAn3 = none :=
  ⟨((C8_squashfs_image_size.1 cSq48 0 (by decide) (by decide)).1 (by decide)),
   C8_squashfs_image_size.2 cAn3 (by decide)⟩

/-- Counterexample for C8: with `bytes_used = 0xffffffffffffffff` (valid
magic, 48-byte file) the computation wraps: `open` succeeds with
`image_size = 0`, which is not `bytes_used` rounded up to the next multiple
of 4096. -/
theorem C8_squashfs_image_size_counterexample :
    imageReaderOpen ImageType.SquashFsType cSqMax = some 0 ∧
    (0 : Nat) ≠ 4096 * ((readLE cSqMax 40 8 + 4095) / 4096) := by
  constructor
  · decide
  · decide

/-- C9 (amended): for an Android boot image that opens successfully and whose
`page_size` is a power of two, `image_size` is the sum of the five
header-derived lengths (the 608-byte header, `kernel_size`, `initrd_size`,
`second_size`, `dtb_size`), each rounded up to the next multiple of
`page_size`; in particular with all sizes zero it is `roundup(608, P)`. -/
theorem C9_android_image_size (bytes : List Nat) (n k : Nat)
    (hb : ∀ b ∈ bytes, b < 256)
    (hP : readLE bytes 36 4 = 2 ^ k)
    (hopen : imageReaderOpen ImageType.AndroidBootType bytes = some n) :
    n = 2 ^ k * ((608 + 2 ^ k - 1) / 2 ^ k) +
        2 ^ k * ((readLE bytes 8 4 + 2 ^ k - 1) / 2 ^ k) +
        2 ^ k * ((readLE bytes 16 4 + 2 ^ k - 1) / 2 ^ k) +
        2 ^ k * ((readLE bytes 24 4 + 2 ^ k - 1) / 2 ^ k) +
        2 ^ k * ((readLE bytes 40 4 + 2 ^ k - 1) / 2 ^ k) := by
  have hn : n = ALIGN_TO 608 (readLE bytes 36 4) +
      ALIGN_TO (readLE bytes 8 4) (readLE bytes 36 4) +
      ALIGN_TO (readLE bytes 16 4) (readLE bytes 36 4) +
      ALIGN_TO (readLE bytes 24 4) (readLE bytes 36 4) +
      ALIGN_TO (readLE bytes 40 4) (readLE bytes 36 4) := by
    simp only [imageReaderOpen] at hopen
    split at hopen
    · exact absurd hopen (by simp)
    · split at hopen
      · exact absurd hopen (by simp)
      · split at hopen
        · exact absurd hopen (by simp)
        · exact (Option.some_inj.mp hopen).symm
  have h32 : (256 : Nat) ^ 4 = 2 ^ 32 := by norm_num
  have hk32 : k < 32 := by
    by_contra hcon
    have h1 : readLE bytes 36 4 < 256 ^ 4 := readLE_lt hb 4 36
    have h2 : (2 : Nat) ^ 32 ≤ 2 ^ k := Nat.pow_le_pow_right (by omega) (by omega)
    omega
  have hkbound : (2 : Nat) ^ k ≤ 2 ^ 31 := Nat.pow_le_pow_right (by omega) (by omega)
  have hfield : ∀ off : Nat, readLE bytes off 4 + 2 ^ k - 1 < 2 ^ 64 := by
    intro off
    have h1 : readLE bytes off 4 < 256 ^ 4 := readLE_lt hb 4 off
    have : (2 : Nat) ^ 32 < 2 ^ 64 := by norm_num
    have : (2 : Nat) ^ 31 < 2 ^ 64 := by norm_num
    omega
  have h608 : (608 : Nat) + 2 ^ k - 1 < 2 ^ 64 := by
    have : (2 : Nat) ^ 31 < 2 ^ 64 := by norm_num
    omega
  rw [hn, hP, ALIGN_TO_pow2 (by omega) h608,
    ALIGN_TO_pow2 (by omega) (hfield 8),
    ALIGN_TO_pow2 (by omega) (hfield 16),
    ALIGN_TO_pow2 (by omega) (hfield 24),
    ALIGN_TO_pow2 (by omega) (hfield 40)]

/-- Witness for C9: the concrete 608-byte boot image with `page_size = 4` and
all sizes zero opens to `image_size = 608 = roundup(608, 4)`. -/
theorem C9_android_image_size_witness :
    imageReaderOpen ImageType.AndroidBootType cAn4 = some 608 ∧
    (608 : Nat) = 2 ^ 2 * ((608 + 2 ^ 2 - 1) / 2 ^ 2) +
        2 ^ 2 * ((readLE cAn4 8 4 + 2 ^ 2 - 1) / 2 ^ 2) +
        2 ^ 2 * ((readLE cAn4 16 4 + 2 ^ 2 - 1) / 2 ^ 2) +
        2 ^ 2 * ((readLE cAn4 24 4 + 2 ^ 2 - 1) / 2 ^ 2) +
        2 ^ 2 * ((readLE cAn4 40 4 + 2 ^ 2 - 1) / 2 ^ 2) :=
  ⟨by decide,
   C9_android_image_size cAn4 608 2 (by decide) (by decide) (by decide)⟩

/-- Counterexample for C9: with `page_size = 3` (not a power of two) and all
sizes zero, `open` succeeds with `image_size = 608`, but `608` rounded up to
the next multiple of 3 is 609. -/
theorem C9_android_image_size_counterexample :
    imageReaderOpen ImageType.AndroidBootType cAn3 = some 608 ∧
    readLE cAn3 8 4 = 0 ∧ readLE cAn3 16 4 = 0 ∧ readLE cAn3 24 4 = 0 ∧
    readLE cAn3 40 4 = 0 ∧ readLE cAn3 36 4 = 3 ∧
    (608 : Nat) ≠ 3 * ((608 + 3 - 1) / 3) := by
  refine ⟨by decide, by decide, by decide, by decide, by decide, by decide, by decide⟩

/-- Hex digits produced by `byteToHex` are never ASCII uppercase letters. -/
theorem byteToHex_not_upper (b : Nat) :
    ∀ c ∈ byteToHex b, ¬ (65 ≤ c.toNat ∧ c.toNat ≤ 90) := by
  have h16 : ∀ d : Nat, d < 16 → ¬ (65 ≤ (hexDigitChar d).toNat ∧ (hexDigitChar d).toNat ≤ 90) := by
    intro d hd
    interval_cases d <;> decide
  intro c hc
  simp only [byteToHex, List.mem_cons, List.not_mem_nil, or_false] at hc
  rcases hc with rfl | rfl
  · exact h16 _ (Nat.mod_lt _ (by omega))
  · exact h16 _ (Nat.mod_lt _ (by omega))

/-- C4 (amended): the digest comparison of `verifyImage` is case-sensitive:
verification succeeds exactly when the expected string equals the lowercase
hex encoding of the computed digest, and any expected string containing an
ASCII uppercase letter never verifies. -/
theorem C4_hash_comparison_case_sensitive (H : List Nat → List Nat)
    (ty : ImageType) (bytes : List Nat) (sha : String) (n : Nat)
    (hopen : imageReaderOpen ty bytes = some n) :
    (verifyImage H ty bytes sha = true ↔ sha = toHexLower (H (bytes.take n))) ∧
    ((∃ c ∈ sha.data, 65 ≤ c.toNat ∧ c.toNat ≤ 90) →
      verifyImage H ty bytes sha = false) := by
  have hv : verifyImage H ty bytes sha = (toHexLower (H (bytes.take n)) == sha) := by
    simp only [verifyImage, hopen, verifyData_eq_take]
  constructor
  · rw [hv, beq_iff_eq, eq_comm]
  · rintro ⟨c, hc, hcu⟩
    rw [hv, beq_eq_false_iff_ne]
    intro heq
    rw [← heq] at hc
    have hc' : c ∈ (H (bytes.take n)).flatMap byteToHex := hc
    obtain ⟨b, _, hb⟩ := List.mem_flatMap.mp hc'
    exact byteToHex_not_upper b c hb hcu

/-- Witness for C4: with an uppercase expected digest the concrete
verification fails. -/
theorem C4_hash_comparison_case_sensitive_witness :
    imageReaderOpen ImageType.SquashFsType cSq48 = some 0 ∧
    verifyImage (fun _ => [171]) ImageType.SquashFsType cSq48 "AB" = false :=
  ⟨by decide,
   (C4_hash_comparison_case_sensitive (fun _ => [171]) ImageType.SquashFsType
      cSq48 "AB" 0 (by decide)).2 (by decide)⟩

/-- Counterexample for C4: the digest `ab` verifies in lowercase but not in
uppercase, so verification is not case-insensitive. -/
theorem C4_hash_comparison_counterexample :
    verifyImage (fun _ => [171]) ImageType.SquashFsType cSq48 "ab" = true ∧
    verifyImage (fun _ => [171]) ImageType.SquashFsType cSq48 "AB" = false := by
  constructor
  · decide
  · decide

/-- C5 (amended): `check_failed` is emitted exactly when the manifest bytes
could be written and failed to parse as JSON.  In particular an invalid
manifest signature (GPG exiting non-zero) zeroes the record and logs a
warning but emits no `check_failed`, and temporary-file write failures emit
nothing. -/
theorem C5_check_failed_iff_parse_error (env : CheckEnv) (init : AvailableUpdate) :
    Event.checkFailed ∈ (checkRun env init).2 ↔
      env.jsonWriteOk = true ∧ env.parsed = none := by
  obtain ⟨jw, p, sw, sv, osv⟩ := env
  rcases jw with _ | _
  · simp [checkRun]
  · rcases p with _ | upd
    · simp [checkRun]
    · rcases sw with _ | _
      · simp [checkRun]
      · rcases sv with _ | _
        · simp [checkRun]
        · by_cases hcmp : osv < upd.version
          · simp [checkRun, hcmp]
          · simp [checkRun, hcmp]

/-- Counterexample for C5: manifest written and parsed, signature written,
GPG fails — an error before any successful verification — yet no event at
all (in particular no `check_failed`) is emitted. -/
theorem C5_check_failed_counterexample :
    (checkRun ⟨true, some ⟨5, "", "", "", "", "", ""⟩, true, false, 3⟩ zeroUpdate).2 = [] ∧
    Event.checkFailed ∉
      (checkRun ⟨true, some ⟨5, "", "", "", "", "", ""⟩, true, false, 3⟩ zeroUpdate).2 := by
  constructor
  · rfl
  · decide

/-- C6 (amended): only the invalid-signature path zeroes the in-memory
record.  When the manifest cannot be written or fails to parse, the previous
record survives; when the signature file cannot be written, the freshly
parsed — unverified — record survives; only when the signature bytes are
written and GPG rejects them is the record zeroed. -/
theorem C6_record_zeroing (env : CheckEnv) (init upd : AvailableUpdate) :
    (env.jsonWriteOk = false → (checkRun env init).1 = init) ∧
    (env.parsed = none → (checkRun env init).1 = init) ∧
    (env.jsonWriteOk = true → env.parsed = some upd → env.sigWriteOk = false →
      (checkRun env init).1 = upd) ∧
    (env.jsonWriteOk = true → env.parsed = some upd → env.sigWriteOk = true →
      env.sigValid = false → (checkRun env init).1 = zeroUpdate) := by
  refine ⟨?_, ?_, ?_, ?_⟩
  · intro h
    simp [checkRun, h]
  · intro h
    rcases hj : env.jsonWriteOk with _ | _
    · simp [checkRun, hj]
    · simp [checkRun, hj, h]
  · intro hj hp hs
    simp [checkRun, hj, hp, hs]
  · intro hj hp hs hv
    simp [checkRun, hj, hp, hs, hv]

/-- Witness for C6: the invalid-signature path at a concrete input does zero
the record. -/
theorem C6_record_zeroing_witness :
    (checkRun ⟨true, some ⟨7, "", "", "", "", "", ""⟩, true, false, 3⟩ zeroUpdate).1 =
      zeroUpdate :=
  (C6_record_zeroing ⟨true, some ⟨7, "", "", "", "", "", ""⟩, true, false, 3⟩
    zeroUpdate ⟨7, "", "", "", "", "", ""⟩).2.2.2 rfl rfl rfl rfl

/-- Counterexample for C6: the manifest parses (the unverified fields are
assigned) and then the signature file cannot be written — the check fails
before any successful verification, no event is emitted, and yet the record
keeps `version = 7 ≠ 0`. -/
theorem C6_record_zeroing_counterexample :
    (checkRun ⟨true, some ⟨7, "", "", "", "", "", ""⟩, false, false, 3⟩ zeroUpdate).2 = [] ∧
    ((checkRun ⟨true, some ⟨7, "", "", "", "", "", ""⟩, false, false, 3⟩ zeroUpdate).1).version ≠ 0 := by
  constructor
  · rfl
  · decide

/-- Membership of the boot-selector flip in the install event stream. -/
theorem mem_installEvents_commit (v : Nat) (e1 e2 : KindEnv) :
    Event.commitInactive ∈ installEvents v e1 e2 ↔
      v ≠ 0 ∧ (runThread e1 e2).1 = true := by
  unfold installEvents
  by_cases hv : v = 0
  · simp [hv]
  · rcases hok : (runThread e1 e2).1 with _ | _ <;> simp [hv, hok]

/-- Membership of `update_succeeded` in the install event stream. -/
theorem mem_installEvents_succeeded (v : Nat) (e1 e2 : KindEnv) :
    Event.updateSucceeded ∈ installEvents v e1 e2 ↔
      v ≠ 0 ∧ (runThread e1 e2).1 = true := by
  unfold installEvents
  by_cases hv : v = 0
  · simp [hv]
  · rcases hok : (runThread e1 e2).1 with _ | _ <;> simp [hv, hok]

/-- Membership of `update_failed` in the install event stream. -/
theorem mem_installEvents_failed (v : Nat) (e1 e2 : KindEnv) :
    Event.updateFailed ∈ installEvents v e1 e2 ↔
      v = 0 ∨ (runThread e1 e2).1 = false := by
  unfold installEvents
  by_cases hv : v = 0
  · simp [hv]
  · rcases hok : (runThread e1 e2).1 with _ | _ <;> simp [hv, hok]

/-- The thread outcome is the conjunction of the two per-kind outcomes. -/
theorem runThread_ok (e1 e2 : KindEnv) :
    (runThread e1 e2).1 =
      ((downloadAndVerify EngineState.DownloadBootimgState e1).ok &&
       (downloadAndVerify EngineState.DownloadRootfsState e2).ok) := by
  unfold runThread
  rcases h1 : (downloadAndVerify EngineState.DownloadBootimgState e1).ok with _ | _
  · simp [h1]
  · simp [h1]

/-- C2: the boot-selector flip (`machine->setAltBootConfig()`) happens exactly
on the success path: it occurs iff an update was pending and both images were
downloaded and hash-verified, iff `update_succeeded` is emitted; and in every
run that emits `update_failed` it never occurs. -/
theorem C2_commit_exactly_on_success (version : Nat) (eBoot eRootfs : KindEnv) :
    (Event.commitInactive ∈ installEvents version eBoot eRootfs ↔
      (version ≠ 0 ∧
       (downloadAndVerify EngineState.DownloadBootimgState eBoot).ok = true ∧
       (downloadAndVerify EngineState.DownloadRootfsState eRootfs).ok = true)) ∧
    (Event.commitInactive ∈ installEvents version eBoot eRootfs ↔
      Event.updateSucceeded ∈ installEvents version eBoot eRootfs) ∧
    (Event.updateFailed ∈ installEvents version eBoot eRootfs →
      Event.commitInactive ∉ installEvents version eBoot eRootfs) := by
  refine ⟨?_, ?_, ?_⟩
  · rw [mem_installEvents_commit, runThread_ok, Bool.and_eq_true]
  · rw [mem_installEvents_commit, mem_installEvents_succeeded]
  · intro hf hc
    rw [mem_installEvents_failed] at hf
    rw [mem_installEvents_commit] at hc
    rcases hf with hf | hf
    · exact hc.1 hf
    · rw [hc.2] at hf
      exact absurd hf (by simp)

/-- Witness for C2: a failing run at a concrete input never flips the boot
selector. -/
theorem C2_commit_exactly_on_success_witness :
    Event.commitInactive ∉ installEvents 0 cEnvFail cEnvFail :=
  (C2_commit_exactly_on_success 0 cEnvFail cEnvFail).2.2 (by decide)

/-- C3 (amended): every emitted `update_progress` value lies in `[0, 1]`,
and in runs without fallback (each kind's delta output verifies at the first
attempt) the sequence is monotonically non-decreasing, given that the
transport reported non-decreasing fractions; when the full-image fallback
re-downloads a kind, monotonicity can fail. -/
theorem C3_progress_values (eBoot eRootfs : KindEnv) :
    (∀ x ∈ (runThread eBoot eRootfs).2, 0 ≤ x ∧ x ≤ 1) ∧
    (NoFallback eBoot → NoFallback eRootfs →
     MonotoneFracs eBoot → MonotoneFracs eRootfs →
      List.Pairwise (· ≤ ·) (runThread eBoot eRootfs).2) := by
  constructor
  · intro x hx
    rcases hok : (downloadAndVerify EngineState.DownloadBootimgState eBoot).ok with _ | _
    · have htr : (runThread eBoot eRootfs).2 =
          (downloadAndVerify EngineState.DownloadBootimgState eBoot).trace := by
        simp [runThread, hok]
      rw [htr] at hx
      have h := dv_trace_range EngineState.DownloadBootimgState eBoot x hx
      exact ⟨h.1, h.2.1⟩
    · have htr : (runThread eBoot eRootfs).2 =
          (downloadAndVerify EngineState.DownloadBootimgState eBoot).trace ++
          (downloadAndVerify EngineState.DownloadRootfsState eRootfs).trace := by
        simp [runThread, hok]
      rw [htr] at hx
      rcases List.mem_append.mp hx with h | h
      · have h' := dv_trace_range EngineState.DownloadBootimgState eBoot x h
        exact ⟨h'.1, h'.2.1⟩
      · have h' := dv_trace_range EngineState.DownloadRootfsState eRootfs x h
        exact ⟨h'.1, h'.2.1⟩
  · intro hNB hNR hMB hMR
    obtain ⟨n1, hn1⟩ := Option.isSome_iff_exists.mp hNB.2.1
    obtain ⟨n2, hn2⟩ := Option.isSome_iff_exists.mp hNR.2.1
    have hB := dv_trace_nofallback EngineState.DownloadBootimgState eBoot hNB.1 hn1 hNB.2.2
    have htr : (runThread eBoot eRootfs).2 =
        (downloadAndVerify EngineState.DownloadBootimgState eBoot).trace ++
        (downloadAndVerify EngineState.DownloadRootfsState eRootfs).trace := by
      simp [runThread, hB.1]
    rw [htr, List.pairwise_append]
    refine ⟨dv_trace_nofallback_pairwise EngineState.DownloadBootimgState eBoot
        hNB.1 hn1 hNB.2.2 hMB.1,
      dv_trace_nofallback_pairwise EngineState.DownloadRootfsState eRootfs
        hNR.1 hn2 hNR.2.2 hMR.1, ?_⟩
    intro a ha b hb
    have ha' := (dv_trace_range EngineState.DownloadBootimgState eBoot a ha).2.2.1 rfl
    have hb' := (dv_trace_range EngineState.DownloadRootfsState eRootfs b hb).2.2.2 rfl
    linarith

/-- Witness for C3: a concrete fallback-free run has a monotone trace. -/
theorem C3_progress_values_witness :
    List.Pairwise (· ≤ ·) (runThread cEnvPlain cEnvPlain).2 :=
  (C3_progress_values cEnvPlain cEnvPlain).2
    (by constructor
        · intro h
          simp [cEnvPlain] at h
        · exact ⟨rfl, rfl⟩)
    (by constructor
        · intro h
          simp [cEnvPlain] at h
        · exact ⟨rfl, rfl⟩)
    (by exact ⟨List.Pairwise.nil, List.Pairwise.nil⟩)
    (by exact ⟨List.Pairwise.nil, List.Pairwise.nil⟩)

/-- Counterexample for C3: in a run whose boot kind goes through the
full-image fallback (delta transfer succeeds, its output mismatches, the
full image then verifies), the emitted progress sequence is
`[1/4, 1/2, 0, 1/2, 1]` — the fallback download restarts below the
already-emitted verification progress, so the sequence is not
monotonically non-decreasing. -/
theorem C3_progress_counterexample :
    (runThread cEnvFallback cEnvPlain).1 = true ∧
    (runThread cEnvFallback cEnvPlain).2 =
      [1 / 4, 1 / 2, 0, 1 / 2, 1] ∧
    ¬ List.Pairwise (· ≤ ·) (runThread cEnvFallback cEnvPlain).2 := by
  have htrace : (runThread cEnvFallback cEnvPlain).2 = [1 / 4, 1 / 2, 0, 1 / 2, 1] := by
    norm_num [runThread, downloadAndVerify, cEnvFallback, cEnvPlain, downloadTrace,
      emitProgress, verifyPhase, verifyFracs, verifyLoopFracs, hashChunkLen,
      List.filterMap]
  have hok : (runThread cEnvFallback cEnvPlain).1 = true := by
    norm_num [runThread, downloadAndVerify, cEnvFallback, cEnvPlain, downloadTrace,
      emitProgress, verifyPhase, verifyFracs, verifyLoopFracs, hashChunkLen,
      List.filterMap]
  refine ⟨hok, htrace, ?_⟩
  intro h
  rw [htrace] at h
  rcases h with _ | ⟨h1, h⟩
  rcases h with _ | ⟨h2, h⟩
  have := h2 0 (by simp)
  norm_num at this

end Kalami
